import Mathlib

/-!
Shallow embedding of the page-detail view of
`ee/tabby-ui/app/pages/components/page-main.tsx`: the stream event reducer
`processPageStream`, the `stop` operation, the pagination merge of historical
section records (lodash `uniqBy` keyed by `id`), the effects reacting to the
`listPageSections` query, and the `onDeleteSection` handler.

React `useState` cells touched by these functions are gathered into explicit
state records; each handler becomes a pure state transformer.  Timestamps
(`new Date().toISOString()`) are threaded in as an explicit `now : String`
argument.
-/

/-- A section record (the `SectionItem` shape used by the component).
`pageId` is an `Option` because the source fills it from the `pageId` state
cell (`pageId as string`), which may still be unset when `PageSectionsCreated`
is processed. -/
structure SectionItem where
  id : String
  title : String
  pageId : Option String
  content : String
deriving Repr, DecidableEq

/-- A page record (the `PageItem` shape used by the component). -/
structure PageItem where
  id : String
  authorId : String
  title : String
  content : String
  createdAt : String
  updatedAt : String
deriving Repr, DecidableEq

/-- One entry of the `PageSectionsCreated` payload (`{ id, title }`). -/
structure SectionSeed where
  id : String
  title : String
deriving Repr, DecidableEq

/-- The discriminated union delivered by the `createThreadToPageRun`
subscription.  `unknownEvent` stands for any `__typename` outside the handled
taxonomy; the reducer's `default` arm ignores it. -/
inductive PageRunItem where
  | pageCreated (id authorId title : String)
  | pageContentDelta (delta : String)
  | pageContentCompleted (id : String)
  | pageSectionsCreated (sections : List SectionSeed)
  | pageSectionContentDelta (id delta : String)
  | pageSectionContentCompleted (id : String)
  | pageCompleted (id : String)
  | unknownEvent
deriving Repr, DecidableEq

/-- The `useState` cells of the `Page` component that the reducer and `stop`
touch.  `subscribed` models `unsubscribeFn.current` holding an unsubscribe
function. -/
structure PageState where
  pageId : Option String
  page : Option PageItem
  sections : Option (List SectionItem)
  pendingSectionIds : Finset String
  currentSectionId : Option String
  isGeneratingPageContent : Bool
  isLoading : Bool
  subscribed : Bool
deriving DecidableEq

/-- The component's initial state: every cell starts unset/empty
(`useState` initializers). -/
def initialState : PageState :=
  { pageId := none
    page := none
    sections := none
    pendingSectionIds := ∅
    currentSectionId := none
    isGeneratingPageContent := false
    isLoading := false
    subscribed := false }

/-- `stop.current()`: call and drop the unsubscribe handle, clear the loading
and generating flags, empty the pending set and the current-section marker
(`onPageCompleted` is a no-op in the source). -/
def stop (st : PageState) : PageState :=
  { st with
    subscribed := false
    isLoading := false
    isGeneratingPageContent := false
    pendingSectionIds := ∅
    currentSectionId := none }

/-- The `setPendingSectionIds` updater of the `PageSectionContentCompleted`
branch: `if (!prev.has(data.id)) return prev` else delete `data.id` from a
copy of the set. -/
def removePending (i : String) (pending : Finset String) : Finset String :=
  if i ∈ pending then pending.erase i else pending

/-- The `setSections` updater of the `PageSectionContentDelta` branch: if no
section with the event's id is found (or the list is unset) return `prev`
unchanged, else append the delta to every section whose id matches. -/
def applySectionDelta (i d : String) (sections : Option (List SectionItem)) :
    Option (List SectionItem) :=
  match sections with
  | none => none
  | some prev =>
    if prev.any (fun x => x.id == i) then
      some (prev.map fun x =>
        if x.id == i then { x with content := x.content ++ d } else x)
    else some prev

/-- The stream event reducer `processPageStream`, one event at a time.
`now` stands for `new Date().toISOString()` in the `PageCreated` branch.
The `updatePageURL` call of that branch is routing (out of the state model).

The source's `switch` case for `PageSectionContentDelta` has no `break`, so
after updating `currentSectionId` and the section content it falls through
into the `PageSectionContentCompleted` branch and also removes the event's id
from the pending set; the embedding reproduces that fallthrough. -/
def processPageStream (now : String) (data : PageRunItem) (st : PageState) :
    PageState :=
  match data with
  | .pageCreated id authorId title =>
    let nextPage : PageItem :=
      { id := id
        authorId := authorId
        title := title
        content := ""
        createdAt := now
        updatedAt := now }
    { st with
      pageId := some id
      page := some nextPage
      isGeneratingPageContent := true }
  | .pageContentDelta delta =>
    { st with
      page := st.page.map fun prev => { prev with content := prev.content ++ delta } }
  | .pageContentCompleted _ =>
    { st with isGeneratingPageContent := false }
  | .pageSectionsCreated secs =>
    { st with
      pendingSectionIds := (secs.map (·.id)).toFinset
      sections := some (secs.map fun x =>
        { id := x.id, title := x.title, pageId := st.pageId, content := "" }) }
  | .pageSectionContentDelta i d =>
    { st with
      currentSectionId := some i
      sections := applySectionDelta i d st.sections
      pendingSectionIds := removePending i st.pendingSectionIds }
  | .pageSectionContentCompleted i =>
    { st with pendingSectionIds := removePending i st.pendingSectionIds }
  | .pageCompleted _ => stop st
  | .unknownEvent => st

/-- Folding a sequence of subscription events through the reducer, in
delivery order. -/
def processEvents (now : String) (evs : List PageRunItem) (st : PageState) :
    PageState :=
  evs.foldl (fun s e => processPageStream now e s) st

/-- lodash `uniqBy(xs, 'id')`: keep the first record seen for each id,
in order.  `seen` accumulates the ids already kept. -/
def uniqByIdAux (seen : List String) : List SectionItem → List SectionItem
  | [] => []
  | x :: xs =>
    if x.id ∈ seen then uniqByIdAux seen xs
    else x :: uniqByIdAux (x.id :: seen) xs

/-- `uniqBy(xs, 'id')` with nothing seen yet. -/
def uniqById (xs : List SectionItem) : List SectionItem := uniqByIdAux [] xs

/-- The pagination merge
`setSections(prev => uniqBy([...(prev || []), ...messages], 'id'))`. -/
def mergeSections (prev : Option (List SectionItem))
    (messages : List SectionItem) : List SectionItem :=
  uniqById (prev.getD [] ++ messages)

/-- Result of one round of the `listPageSections` query: a data payload
(`records`, `pageInfo.hasNextPage`, `pageInfo.endCursor`) or an error. -/
inductive SectionsFetchResult where
  | ok (records : List SectionItem) (hasNextPage : Bool) (endCursor : Option String)
  | failed
deriving Repr, DecidableEq

/-- The state cells driving section pagination. -/
structure SectionFetchState where
  sections : Option (List SectionItem)
  afterCursor : Option String
  isReady : Bool
deriving DecidableEq

/-- How the `useEffect` blocks react to one settled round of the section
query: on data, merge a non-empty page of records into the list, then either
advance the cursor (when `hasNextPage && endCursor` is truthy) or mark the
view ready; on error, mark the view ready (`if (pageSectionsError && !isReady)
setIsReady(true)`), leaving the list alone. -/
def handleSectionsResponse (st : SectionFetchState) (r : SectionsFetchResult) :
    SectionFetchState :=
  match r with
  | .failed => if st.isReady then st else { st with isReady := true }
  | .ok records hasNextPage endCursor =>
    let st1 :=
      if records.isEmpty then st
      else { st with sections := some (mergeSections st.sections records) }
    if hasNextPage && !(endCursor.getD "").isEmpty then
      { st1 with afterCursor := endCursor }
    else { st1 with isReady := true }

/-- The section query's `pause: !pageIdFromURL || isReady`: when `true`, no
further pagination request is issued. -/
def sectionsQueryPaused (pageIdFromURL : Option String)
    (st : SectionFetchState) : Bool :=
  pageIdFromURL.isNone || st.isReady

/-- Outcome of `onDeleteSection`: the section list after the handler, and
whether the failure toast was shown. -/
structure DeleteSectionOutcome where
  sections : Option (List SectionItem)
  failureNotice : Bool
deriving DecidableEq

/-- `onDeleteSection(sectionId)`: without a page id in the URL it returns
before calling the mutation; on a truthy mutation response it filters the id
out of the captured section list; on a falsy response it shows the failure
toast and leaves the list alone.  `deleted` is the truthiness of
`data?.data?.deletePageSection`. -/
def onDeleteSection (pageIdFromURL : Option String)
    (sections : Option (List SectionItem)) (sectionId : String)
    (deleted : Bool) : DeleteSectionOutcome :=
  if pageIdFromURL.isNone then { sections := sections, failureNotice := false }
  else if deleted then
    { sections := sections.map (List.filter (fun x => x.id != sectionId))
      failureNotice := false }
  else { sections := sections, failureNotice := true }

/-- The event sequence of Scenario 1 of the specification. -/
def scenario1 : List PageRunItem :=
  [ .pageCreated "1" "author" "T"
  , .pageContentDelta "Hel"
  , .pageContentDelta "lo"
  , .pageContentCompleted "1"
  , .pageSectionsCreated [{ id := "s1", title := "A" }]
  , .pageSectionContentDelta "s1" "Hi"
  , .pageSectionContentCompleted "s1"
  , .pageCompleted "1" ]

/-- C2: folding the Scenario 1 event sequence from the initial empty state
yields page content `"Hello"`, an empty pending set, and the single section
`{id := "s1", title := "A", content := "Hi"}` (its `pageId` having been
adopted from the `PageCreated` event). -/
theorem c2_scenario1_final_state (now : String) :
    (processEvents now scenario1 initialState).page.map (·.content) = some "Hello" ∧
    (processEvents now scenario1 initialState).pendingSectionIds = ∅ ∧
    (processEvents now scenario1 initialState).sections =
      some [{ id := "s1", title := "A", pageId := some "1", content := "Hi" }] :=
  ⟨rfl, rfl, rfl⟩

/-- C7: `stop` empties the pending set, clears the generating flag and the
loading flag, and leaves the page object and the section list exactly as they
were. -/
theorem c7_stop_clears_flags_preserves_content (st : PageState) :
    (stop st).pendingSectionIds = ∅ ∧
    (stop st).isGeneratingPageContent = false ∧
    (stop st).isLoading = false ∧
    (stop st).page = st.page ∧
    (stop st).sections = st.sections :=
  ⟨rfl, rfl, rfl, rfl, rfl⟩

/-- C10: processing a `PageSectionContentDelta` sets `currentSectionId` to the
event's id unconditionally, whatever the current state — in particular also
when no section with that id exists, so a stray delta is not a complete no-op
on the reducer's state. -/
theorem c10_delta_sets_current_section_unconditionally (now i d : String)
    (st : PageState) :
    (processPageStream now (.pageSectionContentDelta i d) st).currentSectionId =
      some i :=
  rfl

/-- C5: processing `PageSectionContentCompleted i` when `i` is not in the
pending set leaves the pending set unchanged. -/
theorem c5_completed_absent_is_noop (now i : String) (st : PageState)
    (h : i ∉ st.pendingSectionIds) :
    (processPageStream now (.pageSectionContentCompleted i) st).pendingSectionIds =
      st.pendingSectionIds := by
  simp [processPageStream, removePending, h]

/-- Witness for C5 at a concrete state whose pending set lacks the id. -/
theorem c5_completed_absent_is_noop_instance :
    (processPageStream "" (.pageSectionContentCompleted "s2")
        { initialState with pendingSectionIds := {"s1"} }).pendingSectionIds =
      ({"s1"} : Finset String) :=
  c5_completed_absent_is_noop "" "s2"
    { initialState with pendingSectionIds := {"s1"} } (by decide)

/-- C6: processing a `PageSectionContentDelta` whose id matches no section of
the current list leaves the section list unchanged (and, the reducer being a
total function, raises no exception). -/
theorem c6_delta_unknown_id_keeps_sections (now i d : String) (st : PageState)
    (h : (st.sections.getD []).all (fun x => x.id != i) = true) :
    (processPageStream now (.pageSectionContentDelta i d) st).sections =
      st.sections := by
  cases hs : st.sections with
  | none => simp [processPageStream, applySectionDelta, hs]
  | some l =>
    have hall : l.all (fun x => x.id != i) = true := by
      rw [hs] at h; simpa using h
    have hany : l.any (fun x => x.id == i) = false := by
      rw [List.any_eq_false]
      intro x hx
      have hne := List.all_eq_true.mp hall x hx
      simpa using hne
    simp [processPageStream, applySectionDelta, hs, hany]

/-- Witness for C6: a delta for the never-created id `"s9"`. -/
theorem c6_delta_unknown_id_keeps_sections_instance :
    (processPageStream "" (.pageSectionContentDelta "s9" "!")
        { initialState with
          sections := some [{ id := "s1", title := "A", pageId := none, content := "" }] }).sections =
      some [{ id := "s1", title := "A", pageId := none, content := "" }] :=
  c6_delta_unknown_id_keeps_sections "" "s9" "!"
    { initialState with
      sections := some [{ id := "s1", title := "A", pageId := none, content := "" }] }
    (by decide)

/-- C8: when a round of the section query fails, the section list is not
touched, the view is marked ready, and the query is paused (no further
pagination request is issued). -/
theorem c8_fetch_failure_degrades_gracefully (st : SectionFetchState)
    (pid : String) :
    (handleSectionsResponse st .failed).sections = st.sections ∧
    (handleSectionsResponse st .failed).isReady = true ∧
    sectionsQueryPaused (some pid) (handleSectionsResponse st .failed) = true := by
  unfold handleSectionsResponse sectionsQueryPaused
  by_cases h : st.isReady <;> simp [h]

/-- C9: with a page id in the URL, a falsy delete-section mutation response
leaves the section list unchanged and produces the failure notice, while a
truthy response filters the deleted id out of the list (no optimistic removal
before confirmation). -/
theorem c9_delete_section_waits_for_confirmation (pid : String)
    (sections : Option (List SectionItem)) (sid : String) :
    (onDeleteSection (some pid) sections sid false).sections = sections ∧
    (onDeleteSection (some pid) sections sid false).failureNotice = true ∧
    (onDeleteSection (some pid) sections sid true).sections =
      sections.map (List.filter (fun x => x.id != sid)) ∧
    (onDeleteSection (some pid) sections sid true).failureNotice = false := by
  simp [onDeleteSection]

/-- C1 (evaluation at the failing input): because the source's
`PageSectionContentDelta` switch case has no `break`, processing a delta for a
section that exists and is pending removes its id from the pending set — the
content is appended and the id recorded as current, but the pending-set
membership does not survive until `PageSectionContentCompleted` as the claim
states. -/
theorem c1_delta_fallthrough_removes_pending :
    ("s1" ∈ ({"s1"} : Finset String)) ∧
    (processPageStream "" (.pageSectionContentDelta "s1" "!")
        { initialState with
          sections := some [{ id := "s1", title := "A", pageId := some "1", content := "x" }]
          pendingSectionIds := {"s1"} }).pendingSectionIds = ∅ ∧
    (processPageStream "" (.pageSectionContentDelta "s1" "!")
        { initialState with
          sections := some [{ id := "s1", title := "A", pageId := some "1", content := "x" }]
          pendingSectionIds := {"s1"} }).sections =
      some [{ id := "s1", title := "A", pageId := some "1", content := "x!" }] := by
  refine ⟨by decide, by decide, by decide⟩

/-! ### Properties of the pagination merge -/

/-- When every id of `ys` is already seen, `uniqByIdAux` keeps nothing. -/
lemma uniqByIdAux_all_seen : ∀ (ys : List SectionItem) (seen : List String),
    (∀ y ∈ ys, y.id ∈ seen) → uniqByIdAux seen ys = [] := by
  intro ys
  induction ys with
  | nil => intro seen _; rfl
  | cons y ys ih =>
    intro seen h
    have hy : y.id ∈ seen := h y (by simp)
    simp only [uniqByIdAux, if_pos hy]
    exact ih seen fun z hz => h z (by simp [hz])

/-- Appending records whose ids are all seen or already occur in `xs` does
not change the result of `uniqByIdAux`. -/
lemma uniqByIdAux_append_subsumed :
    ∀ (xs : List SectionItem) (seen : List String) (ys : List SectionItem),
    (∀ y ∈ ys, y.id ∈ seen ∨ y.id ∈ xs.map (·.id)) →
    uniqByIdAux seen (xs ++ ys) = uniqByIdAux seen xs := by
  intro xs
  induction xs with
  | nil =>
    intro seen ys h
    have hall : ∀ y ∈ ys, y.id ∈ seen := by
      intro y hy
      rcases h y hy with h1 | h1
      · exact h1
      · simp at h1
    simpa using uniqByIdAux_all_seen ys seen hall
  | cons x xs ih =>
    intro seen ys h
    by_cases hx : x.id ∈ seen
    · simp only [List.cons_append, uniqByIdAux, if_pos hx]
      refine ih seen ys fun y hy => ?_
      rcases h y hy with h1 | h1
      · exact Or.inl h1
      · simp only [List.map_cons, List.mem_cons] at h1
        rcases h1 with h2 | h2
        · exact Or.inl (h2 ▸ hx)
        · exact Or.inr h2
    · simp only [List.cons_append, uniqByIdAux, if_neg hx]
      congr 1
      refine ih (x.id :: seen) ys fun y hy => ?_
      rcases h y hy with h1 | h1
      · exact Or.inl (by simp [h1])
      · simp only [List.map_cons, List.mem_cons] at h1
        rcases h1 with h2 | h2
        · exact Or.inl (by simp [h2])
        · exact Or.inr h2

/-- An id occurring in `l` and not yet seen still occurs after deduplication. -/
lemma mem_map_id_uniqByIdAux (i : String) :
    ∀ (l : List SectionItem) (seen : List String),
    i ∈ l.map (·.id) → i ∉ seen → i ∈ (uniqByIdAux seen l).map (·.id) := by
  intro l
  induction l with
  | nil => intro seen h _; simp at h
  | cons x xs ih =>
    intro seen h hns
    simp only [List.map_cons, List.mem_cons] at h
    by_cases hx : x.id ∈ seen
    · simp only [uniqByIdAux, if_pos hx]
      rcases h with h1 | h1
      · exact absurd (h1 ▸ hx) hns
      · exact ih seen h1 hns
    · simp only [uniqByIdAux, if_neg hx, List.map_cons, List.mem_cons]
      rcases h with h1 | h1
      · exact Or.inl h1
      · by_cases hix : i = x.id
        · exact Or.inl hix
        · exact Or.inr (ih (x.id :: seen) h1 (by simp [hix, hns]))

/-- Deduplicating an already-deduplicated list is the identity. -/
lemma uniqByIdAux_idem : ∀ (l : List SectionItem) (seen : List String),
    uniqByIdAux seen (uniqByIdAux seen l) = uniqByIdAux seen l := by
  intro l
  induction l with
  | nil => intro seen; rfl
  | cons x xs ih =>
    intro seen
    by_cases hx : x.id ∈ seen
    · simp only [uniqByIdAux, if_pos hx]
      exact ih seen
    · simp only [uniqByIdAux, if_neg hx]
      congr 1
      exact ih (x.id :: seen)

/-- The ids kept by `uniqByIdAux` are pairwise distinct and avoid `seen`. -/
lemma uniqByIdAux_ids_nodup : ∀ (l : List SectionItem) (seen : List String),
    ((uniqByIdAux seen l).map (·.id)).Nodup ∧
    ∀ i ∈ (uniqByIdAux seen l).map (·.id), i ∉ seen := by
  intro l
  induction l with
  | nil => intro seen; exact ⟨List.nodup_nil, by simp [uniqByIdAux]⟩
  | cons x xs ih =>
    intro seen
    by_cases hx : x.id ∈ seen
    · simpa only [uniqByIdAux, if_pos hx] using ih seen
    · obtain ⟨hnd, havoid⟩ := ih (x.id :: seen)
      constructor
      · simp only [uniqByIdAux, if_neg hx, List.map_cons, List.nodup_cons]
        exact ⟨fun hmem => havoid x.id hmem (by simp), hnd⟩
      · intro i hi
        simp only [uniqByIdAux, if_neg hx, List.map_cons, List.mem_cons] at hi
        rcases hi with h1 | h1
        · exact h1 ▸ hx
        · intro hmem
          exact havoid i h1 (by simp [hmem])

/-- Every record kept by `uniqByIdAux` is the first record of the input with
its id. -/
lemma uniqByIdAux_first_occurrence :
    ∀ (l : List SectionItem) (seen : List String) (x : SectionItem),
    x ∈ uniqByIdAux seen l → l.find? (fun y => y.id == x.id) = some x := by
  intro l
  induction l with
  | nil => intro seen x h; simp [uniqByIdAux] at h
  | cons z zs ih =>
    intro seen x h
    by_cases hz : z.id ∈ seen
    · simp only [uniqByIdAux, if_pos hz] at h
      have hx_avoid : x.id ∉ seen :=
        (uniqByIdAux_ids_nodup zs seen).2 x.id (List.mem_map_of_mem _ h)
      have hzx : (z.id == x.id) = false := by
        simp only [beq_eq_false_iff_ne, ne_eq]
        intro he; exact hx_avoid (he ▸ hz)
      simp only [List.find?, hzx]
      exact ih seen x h
    · simp only [uniqByIdAux, if_neg hz, List.mem_cons] at h
      rcases h with h1 | h1
      · subst h1
        simp [List.find?]
      · have hx_avoid : x.id ∉ z.id :: seen :=
          (uniqByIdAux_ids_nodup zs (z.id :: seen)).2 x.id (List.mem_map_of_mem _ h1)
        have hzx : (z.id == x.id) = false := by
          simp only [beq_eq_false_iff_ne, ne_eq]
          intro he; exact hx_avoid (by simp [he])
        simp only [List.find?, hzx]
        exact ih (z.id :: seen) x h1

/-- Deduplication keeps a subsequence of the input. -/
lemma uniqByIdAux_sublist : ∀ (l : List SectionItem) (seen : List String),
    (uniqByIdAux seen l).Sublist l := by
  intro l
  induction l with
  | nil => intro seen; simp [uniqByIdAux]
  | cons x xs ih =>
    intro seen
    by_cases hx : x.id ∈ seen
    · simp only [uniqByIdAux, if_pos hx]
      exact (ih seen).cons x
    · simp only [uniqByIdAux, if_neg hx]
      exact (ih (x.id :: seen)).cons₂ x

/-- C4: the pagination merge deduplicates by id (the merged ids are pairwise
distinct), keeps records in first-occurrence order (the result is a
subsequence of `existing ++ incoming` and every kept record is the first
record carrying its id), is idempotent under re-application of an
already-merged page, and merges `[{id:a},{id:b}]` then `[{id:b},{id:c}]` into
an empty list as `[a,b,c]`. -/
theorem c4_merge_dedup_first_occurrence_idempotent :
    (∀ (prev : Option (List SectionItem)) (incoming : List SectionItem),
      ((mergeSections prev incoming).map (·.id)).Nodup) ∧
    (∀ (prev : Option (List SectionItem)) (incoming : List SectionItem),
      (mergeSections prev incoming).Sublist (prev.getD [] ++ incoming)) ∧
    (∀ (prev : Option (List SectionItem)) (incoming : List SectionItem),
      ∀ x ∈ mergeSections prev incoming,
      (prev.getD [] ++ incoming).find? (fun y => y.id == x.id) = some x) ∧
    (∀ (prev : Option (List SectionItem)) (incoming : List SectionItem),
      mergeSections (some (mergeSections prev incoming)) incoming =
        mergeSections prev incoming) ∧
    mergeSections
      (some (mergeSections none
        [{ id := "a", title := "A", pageId := none, content := "" },
         { id := "b", title := "B", pageId := none, content := "" }]))
      [{ id := "b", title := "B", pageId := none, content := "" },
       { id := "c", title := "C", pageId := none, content := "" }] =
      [{ id := "a", title := "A", pageId := none, content := "" },
       { id := "b", title := "B", pageId := none, content := "" },
       { id := "c", title := "C", pageId := none, content := "" }] := by
  refine ⟨?_, ?_, ?_, ?_, by decide⟩
  · intro prev incoming
    exact (uniqByIdAux_ids_nodup (prev.getD [] ++ incoming) []).1
  · intro prev incoming
    exact uniqByIdAux_sublist (prev.getD [] ++ incoming) []
  · intro prev incoming x hx
    exact uniqByIdAux_first_occurrence (prev.getD [] ++ incoming) [] x hx
  · intro prev incoming
    show uniqById (uniqById (prev.getD [] ++ incoming) ++ incoming) = _
    unfold uniqById
    rw [uniqByIdAux_append_subsumed _ [] incoming ?_]
    · exact uniqByIdAux_idem (prev.getD [] ++ incoming) []
    · intro y hy
      refine Or.inr (mem_map_id_uniqByIdAux y.id _ [] ?_ (by simp))
      exact List.mem_map_of_mem _ (List.mem_append_right _ hy)

/-- Witness for C4's first-occurrence clause at a concrete overlapping merge. -/
theorem c4_merge_first_occurrence_instance :
    ((some ([] : List SectionItem)).getD [] ++
      ([{ id := "b", title := "B", pageId := none, content := "" },
        { id := "c", title := "C", pageId := none, content := "" }] :
        List SectionItem)).find?
      (fun y => y.id ==
        ({ id := "b", title := "B", pageId := none, content := "" } : SectionItem).id) =
      some { id := "b", title := "B", pageId := none, content := "" } :=
  c4_merge_dedup_first_occurrence_idempotent.2.2.1
    (some [])
    [{ id := "b", title := "B", pageId := none, content := "" },
     { id := "c", title := "C", pageId := none, content := "" }]
    { id := "b", title := "B", pageId := none, content := "" }
    (by decide)

/-! ### Stream concatenation (causally ordered sequences) -/

/-- Concatenation, in delivery order, of all `PageContentDelta` payloads. -/
def pageDeltaText : List PageRunItem → String
  | [] => ""
  | .pageContentDelta d :: rest => d ++ pageDeltaText rest
  | _ :: rest => pageDeltaText rest

/-- Concatenation, in delivery order, of the `PageSectionContentDelta`
payloads carrying section id `i`. -/
def sectionDeltaText (i : String) : List PageRunItem → String
  | [] => ""
  | .pageSectionContentDelta j d :: rest =>
    if j == i then d ++ sectionDeltaText i rest else sectionDeltaText i rest
  | _ :: rest => sectionDeltaText i rest


/-- No `PageCreated` event occurs in the sequence. -/
def noPageCreated : List PageRunItem → Bool
  | [] => true
  | .pageCreated _ _ _ :: _ => false
  | _ :: rest => noPageCreated rest

/-- No `PageSectionsCreated` event occurs in the sequence. -/
def noSectionsCreated : List PageRunItem → Bool
  | [] => true
  | .pageSectionsCreated _ :: _ => false
  | _ :: rest => noSectionsCreated rest

/-- The causal-ordering discipline of the transport, checked after the
initial `PageCreated`: no further `PageCreated`, at most one
`PageSectionsCreated` (carrying the created ids), and every
`PageSectionContentDelta` only after the `PageSectionsCreated` that contains
its id.  `c` is `none` before sections are created and `some ids` after. -/
def causalTail (c : Option (List String)) : List PageRunItem → Bool
  | [] => true
  | e :: rest =>
    match e, c with
    | .pageCreated _ _ _, _ => false
    | .pageSectionsCreated secs, none => causalTail (some (secs.map (·.id))) rest
    | .pageSectionsCreated _, some _ => false
    | .pageSectionContentDelta _ _, none => false
    | .pageSectionContentDelta i _, some ids => ids.contains i && causalTail c rest
    | _, _ => causalTail c rest

/-- A sequence consistent with the causal ordering: it opens with the
`PageCreated` event and its tail respects `causalTail`. -/
def causalOk : List PageRunItem → Bool
  | .pageCreated _ _ _ :: rest => causalTail none rest
  | _ => false

lemma processEvents_cons (now : String) (e : PageRunItem)
    (rest : List PageRunItem) (st : PageState) :
    processEvents now (e :: rest) st =
      processEvents now rest (processPageStream now e st) := rfl

lemma causalTail_noPageCreated :
    ∀ (evs : List PageRunItem) (c : Option (List String)),
    causalTail c evs = true → noPageCreated evs = true := by
  intro evs
  induction evs with
  | nil => intro c _; rfl
  | cons e rest ih =>
    intro c h
    cases c with
    | none =>
      cases e with
      | pageCreated a b t => simp [causalTail] at h
      | pageContentDelta d =>
        simp only [causalTail] at h
        simp only [noPageCreated]
        exact ih _ h
      | pageContentCompleted a =>
        simp only [causalTail] at h
        simp only [noPageCreated]
        exact ih _ h
      | pageSectionsCreated secs =>
        simp only [causalTail] at h
        simp only [noPageCreated]
        exact ih _ h
      | pageSectionContentDelta i d => simp [causalTail] at h
      | pageSectionContentCompleted i =>
        simp only [causalTail] at h
        simp only [noPageCreated]
        exact ih _ h
      | pageCompleted a =>
        simp only [causalTail] at h
        simp only [noPageCreated]
        exact ih _ h
      | unknownEvent =>
        simp only [causalTail] at h
        simp only [noPageCreated]
        exact ih _ h
    | some ids =>
      cases e with
      | pageCreated a b t => simp [causalTail] at h
      | pageContentDelta d =>
        simp only [causalTail] at h
        simp only [noPageCreated]
        exact ih _ h
      | pageContentCompleted a =>
        simp only [causalTail] at h
        simp only [noPageCreated]
        exact ih _ h
      | pageSectionsCreated secs => simp [causalTail] at h
      | pageSectionContentDelta i d =>
        simp only [causalTail, Bool.and_eq_true] at h
        simp only [noPageCreated]
        exact ih _ h.2
      | pageSectionContentCompleted i =>
        simp only [causalTail] at h
        simp only [noPageCreated]
        exact ih _ h
      | pageCompleted a =>
        simp only [causalTail] at h
        simp only [noPageCreated]
        exact ih _ h
      | unknownEvent =>
        simp only [causalTail] at h
        simp only [noPageCreated]
        exact ih _ h

lemma causalTail_some_noSectionsCreated :
    ∀ (evs : List PageRunItem) (ids : List String),
    causalTail (some ids) evs = true → noSectionsCreated evs = true := by
  intro evs
  induction evs with
  | nil => intro ids _; rfl
  | cons e rest ih =>
    intro ids h
    cases e with
    | pageCreated a b t => simp [causalTail] at h
    | pageContentDelta d =>
      simp only [causalTail] at h
      simp only [noSectionsCreated]
      exact ih _ h
    | pageContentCompleted a =>
      simp only [causalTail] at h
      simp only [noSectionsCreated]
      exact ih _ h
    | pageSectionsCreated secs => simp [causalTail] at h
    | pageSectionContentDelta i d =>
      simp only [causalTail, Bool.and_eq_true] at h
      simp only [noSectionsCreated]
      exact ih _ h.2
    | pageSectionContentCompleted i =>
      simp only [causalTail] at h
      simp only [noSectionsCreated]
      exact ih _ h
    | pageCompleted a =>
      simp only [causalTail] at h
      simp only [noSectionsCreated]
      exact ih _ h
    | unknownEvent =>
      simp only [causalTail] at h
      simp only [noSectionsCreated]
      exact ih _ h

/-- Once the page object exists, folding a sequence with no further
`PageCreated` appends exactly the delivered page deltas to its content. -/
lemma page_content_concat (now : String) :
    ∀ (evs : List PageRunItem) (st : PageState) (p : PageItem),
    noPageCreated evs = true → st.page = some p →
    (processEvents now evs st).page =
      some { p with content := p.content ++ pageDeltaText evs } := by
  intro evs
  induction evs with
  | nil =>
    intro st p _ hp
    simp only [processEvents, List.foldl_nil, pageDeltaText, String.append_empty]
    exact hp
  | cons e rest ih =>
    intro st p hnc hp
    rw [processEvents_cons]
    cases e with
    | pageCreated id a t => simp [noPageCreated] at hnc
    | pageContentDelta d =>
      have hnc' : noPageCreated rest = true := by
        simpa only [noPageCreated] using hnc
      have hst : (processPageStream now (.pageContentDelta d) st).page =
          some { p with content := p.content ++ d } := by
        simp [processPageStream, hp]
      rw [ih _ _ hnc' hst]
      simp only [pageDeltaText]
      rw [← String.append_assoc]
    | pageContentCompleted id =>
      have hnc' : noPageCreated rest = true := by
        simpa only [noPageCreated] using hnc
      have hst : (processPageStream now (.pageContentCompleted id) st).page = some p := hp
      rw [ih _ _ hnc' hst]
      simp only [pageDeltaText]
    | pageSectionsCreated secs =>
      have hnc' : noPageCreated rest = true := by
        simpa only [noPageCreated] using hnc
      have hst : (processPageStream now (.pageSectionsCreated secs) st).page = some p := hp
      rw [ih _ _ hnc' hst]
      simp only [pageDeltaText]
    | pageSectionContentDelta i d =>
      have hnc' : noPageCreated rest = true := by
        simpa only [noPageCreated] using hnc
      have hst : (processPageStream now (.pageSectionContentDelta i d) st).page = some p := hp
      rw [ih _ _ hnc' hst]
      simp only [pageDeltaText]
    | pageSectionContentCompleted i =>
      have hnc' : noPageCreated rest = true := by
        simpa only [noPageCreated] using hnc
      have hst : (processPageStream now (.pageSectionContentCompleted i) st).page = some p := hp
      rw [ih _ _ hnc' hst]
      simp only [pageDeltaText]
    | pageCompleted id =>
      have hnc' : noPageCreated rest = true := by
        simpa only [noPageCreated] using hnc
      have hst : (processPageStream now (.pageCompleted id) st).page = some p := hp
      rw [ih _ _ hnc' hst]
      simp only [pageDeltaText]
    | unknownEvent =>
      have hnc' : noPageCreated rest = true := by
        simpa only [noPageCreated] using hnc
      have hst : (processPageStream now .unknownEvent st).page = some p := hp
      rw [ih _ _ hnc' hst]
      simp only [pageDeltaText]

/-- The per-record update performed by the `PageSectionContentDelta` branch
on a section list that contains the event's id. -/
def sectionUpd (i d : String) (x : SectionItem) : SectionItem :=
  if x.id == i then { x with content := x.content ++ d } else x

/-- `applySectionDelta` on a present list is the pointwise `sectionUpd` map:
when no id matches, the map is the identity, agreeing with the source's
early return of `prev`. -/
lemma applySectionDelta_map (i d : String) (l : List SectionItem) :
    applySectionDelta i d (some l) = some (l.map (sectionUpd i d)) := by
  by_cases hany : l.any (fun x => x.id == i) = true
  · simp [applySectionDelta, hany, sectionUpd]
  · have hany2 : l.any (fun x => x.id == i) = false := by
      simpa using hany
    simp only [applySectionDelta, hany2, Bool.false_eq_true, if_false]
    congr 1
    have hid : ∀ x ∈ l, sectionUpd i d x = x := by
      intro x hx
      have hnm := List.any_eq_false.mp hany2 x hx
      unfold sectionUpd
      rw [if_neg hnm]
    exact ((List.map_congr_left hid).trans l.map_id).symm

/-- Once the section list exists, folding a sequence with no further
`PageSectionsCreated` appends to each section exactly the deltas delivered
for its id. -/
lemma sections_concat (now : String) :
    ∀ (evs : List PageRunItem) (st : PageState) (l : List SectionItem),
    noSectionsCreated evs = true → st.sections = some l →
    (processEvents now evs st).sections =
      some (l.map fun s => { s with content := s.content ++ sectionDeltaText s.id evs }) := by
  intro evs
  induction evs with
  | nil =>
    intro st l _ hs
    simp only [processEvents, List.foldl_nil]
    rw [hs]
    congr 1
    have hid : ∀ s ∈ l,
        ({ s with content := s.content ++ sectionDeltaText s.id [] } : SectionItem) = s := by
      intro s _
      rcases s with ⟨sid, stitle, spgid, scont⟩
      simp [sectionDeltaText, String.append_empty]
    exact ((List.map_congr_left hid).trans l.map_id).symm
  | cons e rest ih =>
    intro st l hnsc hs
    rw [processEvents_cons]
    cases e with
    | pageSectionsCreated secs => simp [noSectionsCreated] at hnsc
    | pageSectionContentDelta i d =>
      have hnsc' : noSectionsCreated rest = true := by
        simpa only [noSectionsCreated] using hnsc
      have hst : (processPageStream now (.pageSectionContentDelta i d) st).sections =
          some (l.map (sectionUpd i d)) := by
        show applySectionDelta i d st.sections = _
        rw [hs, applySectionDelta_map]
      rw [ih _ _ hnsc' hst, List.map_map]
      congr 1
      refine List.map_congr_left fun s _ => ?_
      rcases s with ⟨sid, stitle, spgid, scont⟩
      by_cases hsi : sid = i
      · subst hsi
        simp [Function.comp, sectionUpd, sectionDeltaText, String.append_assoc]
      · have h1 : (sid == i) = false := beq_eq_false_iff_ne.mpr hsi
        have h2 : (i == sid) = false := beq_eq_false_iff_ne.mpr (Ne.symm hsi)
        simp [Function.comp, sectionUpd, sectionDeltaText, h1, h2]
    | pageCreated a b t =>
      have hnsc' : noSectionsCreated rest = true := by
        simpa only [noSectionsCreated] using hnsc
      have hst : (processPageStream now (.pageCreated a b t) st).sections = some l := hs
      rw [ih _ _ hnsc' hst]
      simp only [sectionDeltaText]
    | pageContentDelta d =>
      have hnsc' : noSectionsCreated rest = true := by
        simpa only [noSectionsCreated] using hnsc
      have hst : (processPageStream now (.pageContentDelta d) st).sections = some l := hs
      rw [ih _ _ hnsc' hst]
      simp only [sectionDeltaText]
    | pageContentCompleted a =>
      have hnsc' : noSectionsCreated rest = true := by
        simpa only [noSectionsCreated] using hnsc
      have hst : (processPageStream now (.pageContentCompleted a) st).sections = some l := hs
      rw [ih _ _ hnsc' hst]
      simp only [sectionDeltaText]
    | pageSectionContentCompleted i =>
      have hnsc' : noSectionsCreated rest = true := by
        simpa only [noSectionsCreated] using hnsc
      have hst : (processPageStream now (.pageSectionContentCompleted i) st).sections = some l := hs
      rw [ih _ _ hnsc' hst]
      simp only [sectionDeltaText]
    | pageCompleted a =>
      have hnsc' : noSectionsCreated rest = true := by
        simpa only [noSectionsCreated] using hnsc
      have hst : (processPageStream now (.pageCompleted a) st).sections = some l := hs
      rw [ih _ _ hnsc' hst]
      simp only [sectionDeltaText]
    | unknownEvent =>
      have hnsc' : noSectionsCreated rest = true := by
        simpa only [noSectionsCreated] using hnsc
      have hst : (processPageStream now .unknownEvent st).sections = some l := hs
      rw [ih _ _ hnsc' hst]
      simp only [sectionDeltaText]

/-- Before any `PageSectionsCreated`, the section list is unset; if a
causally ordered tail produces a section list, every section of it carries
exactly the concatenation of the deltas delivered for its id. -/
lemma sections_from_creation (now : String) :
    ∀ (evs : List PageRunItem) (st : PageState),
    causalTail none evs = true → st.sections = none →
    ∀ l, (processEvents now evs st).sections = some l →
    ∀ s ∈ l, s.content = sectionDeltaText s.id evs := by
  intro evs
  induction evs with
  | nil =>
    intro st _ hs l hl
    simp only [processEvents, List.foldl_nil] at hl
    rw [hs] at hl
    simp at hl
  | cons e rest ih =>
    intro st hct hs l hl
    rw [processEvents_cons] at hl
    cases e with
    | pageCreated a b t => simp [causalTail] at hct
    | pageSectionContentDelta i d => simp [causalTail] at hct
    | pageSectionsCreated secs =>
      have hct' : causalTail (some (secs.map (·.id))) rest = true := by
        simpa only [causalTail] using hct
      have hnsc := causalTail_some_noSectionsCreated rest _ hct'
      have hst : (processPageStream now (.pageSectionsCreated secs) st).sections =
          some (secs.map fun x =>
            ({ id := x.id, title := x.title, pageId := st.pageId, content := "" } :
              SectionItem)) := rfl
      have hfinal := sections_concat now rest _ _ hnsc hst
      rw [hfinal] at hl
      have hl' := Option.some.inj hl
      subst hl'
      intro s hsmem
      rw [List.map_map] at hsmem
      rcases List.mem_map.mp hsmem with ⟨x, hx, rfl⟩
      simp [Function.comp, sectionDeltaText, String.empty_append]
    | pageContentDelta d =>
      have hct' : causalTail none rest = true := by
        simpa only [causalTail] using hct
      have hst : (processPageStream now (.pageContentDelta d) st).sections = none := hs
      intro s hsmem
      have hres := ih _ hct' hst l hl s hsmem
      simp only [sectionDeltaText]
      exact hres
    | pageContentCompleted a =>
      have hct' : causalTail none rest = true := by
        simpa only [causalTail] using hct
      have hst : (processPageStream now (.pageContentCompleted a) st).sections = none := hs
      intro s hsmem
      have hres := ih _ hct' hst l hl s hsmem
      simp only [sectionDeltaText]
      exact hres
    | pageSectionContentCompleted i =>
      have hct' : causalTail none rest = true := by
        simpa only [causalTail] using hct
      have hst : (processPageStream now (.pageSectionContentCompleted i) st).sections = none := hs
      intro s hsmem
      have hres := ih _ hct' hst l hl s hsmem
      simp only [sectionDeltaText]
      exact hres
    | pageCompleted a =>
      have hct' : causalTail none rest = true := by
        simpa only [causalTail] using hct
      have hst : (processPageStream now (.pageCompleted a) st).sections = none := hs
      intro s hsmem
      have hres := ih _ hct' hst l hl s hsmem
      simp only [sectionDeltaText]
      exact hres
    | unknownEvent =>
      have hct' : causalTail none rest = true := by
        simpa only [causalTail] using hct
      have hst : (processPageStream now .unknownEvent st).sections = none := hs
      intro s hsmem
      have hres := ih _ hct' hst l hl s hsmem
      simp only [sectionDeltaText]
      exact hres

/-- C3: for every event sequence consistent with the causal ordering, folding
it from the initial state leaves the page content equal to the concatenation
of all `PageContentDelta` payloads in delivery order, and every section of the
resulting list carries the concatenation of the `PageSectionContentDelta`
payloads delivered for its id, in delivery order. -/
theorem c3_reducer_concatenates_deltas (now : String) (evs : List PageRunItem)
    (h : causalOk evs = true) :
    (∃ p, (processEvents now evs initialState).page = some p ∧
      p.content = pageDeltaText evs) ∧
    (∀ l, (processEvents now evs initialState).sections = some l →
      ∀ s ∈ l, s.content = sectionDeltaText s.id evs) := by
  cases evs with
  | nil => simp [causalOk] at h
  | cons e rest =>
    cases e with
    | pageContentDelta d => simp [causalOk] at h
    | pageContentCompleted a => simp [causalOk] at h
    | pageSectionsCreated secs => simp [causalOk] at h
    | pageSectionContentDelta i d => simp [causalOk] at h
    | pageSectionContentCompleted i => simp [causalOk] at h
    | pageCompleted a => simp [causalOk] at h
    | unknownEvent => simp [causalOk] at h
    | pageCreated id a t =>
      have hct : causalTail none rest = true := by
        simpa only [causalOk] using h
      have hnpc := causalTail_noPageCreated rest none hct
      constructor
      · rw [processEvents_cons]
        have hp1 : (processPageStream now (.pageCreated id a t) initialState).page =
            some { id := id, authorId := a, title := t, content := "",
                   createdAt := now, updatedAt := now } := rfl
        refine ⟨_, page_content_concat now rest _ _ hnpc hp1, ?_⟩
        simp [pageDeltaText, String.empty_append]
      · intro l hl s hsmem
        rw [processEvents_cons] at hl
        have hs1 : (processPageStream now (.pageCreated id a t) initialState).sections =
            none := rfl
        have hres := sections_from_creation now rest _ hct hs1 l hl s hsmem
        simp only [sectionDeltaText]
        exact hres

/-- Witness for C3 at the Scenario 1 event sequence. -/
theorem c3_reducer_concatenates_deltas_instance :
    (∃ p, (processEvents "" scenario1 initialState).page = some p ∧
      p.content = pageDeltaText scenario1) ∧
    (∀ l, (processEvents "" scenario1 initialState).sections = some l →
      ∀ s ∈ l, s.content = sectionDeltaText s.id scenario1) :=
  c3_reducer_concatenates_deltas "" scenario1 (by decide)
